import Mathlib

set_option maxHeartbeats 1000000

/-!
Shallow embedding of `photoSort.py`.

The script sorts media files into a destination tree `YYYY/MM - Mon` derived
from a capture timestamp.  The embedding below models the pure decision logic
of the source functions (`get_file_date`, `create_destination_path`,
`process_file`, `process_directory`) over an explicit destination-filesystem
state.  Environmental inputs (results of the EXIF/ffmpeg extractors, the file
modification time, whether an OS call raises) are passed in as parameters;
filesystem mutations (directory creation, file placement) are explicit state
updates on an `FS` value.
-/

/- String utilities modelling the Python standard-library pieces the script
   uses (`str.lower`, `str.endswith`, `str(int)`, zero padding,
   `os.path.splitext`, `os.path.basename`, `os.path.join`). -/

/-- Model of Python `str.lower()` (ASCII lowering, which is all the script
needs: the extension tables are ASCII). -/
def strLower (s : String) : String := (s.data.map Char.toLower).asString

/-- Model of Python `str.endswith(t)`. -/
def strEndsWith (s t : String) : Bool :=
  decide (s.data.reverse.take t.data.length = t.data.reverse)

/-- Decimal digit accumulator for `natToDec`; the first argument is fuel,
always called with fuel at least the number being printed. -/
def natToDecAux : Nat → Nat → List Char
  | 0, _ => []
  | fuel + 1, n =>
    if n = 0 then [] else natToDecAux fuel (n / 10) ++ [Nat.digitChar (n % 10)]

/-- Model of Python `str(n)` / `f"{n}"` for a natural number. -/
def natToDec (n : Nat) : String :=
  if n = 0 then "0" else (natToDecAux n n).asString

/-- Model of Python `f"{n:0wd}"`: decimal, left-padded with zeros to width `w`. -/
def zfillNum (w n : Nat) : String :=
  (List.replicate (w - (natToDec n).length) '0').asString ++ natToDec n

/-- Split a character list at the last `'/'`: returns (directory part
including the final separator, basename part).  Helper for `splitext` and
`basename`. -/
def splitAtLastSep : List Char → List Char × List Char
  | [] => ([], [])
  | c :: rest =>
    if rest.contains '/' then
      (c :: (splitAtLastSep rest).1, (splitAtLastSep rest).2)
    else if c = '/' then ([c], rest)
    else ([], c :: rest)

/-- Split a character list at the last `'.'`, if any: returns (part before
the dot, part from the dot on). -/
def lastDotSplit : List Char → Option (List Char × List Char)
  | [] => none
  | c :: rest =>
    match lastDotSplit rest with
    | some (a, b) => some (c :: a, b)
    | none => if c = '.' then some ([], c :: rest) else none

/-- Model of Python `os.path.splitext` (posix): the extension starts at the
last dot of the basename, provided the basename has a non-dot character
before it (so `.bashrc` has no extension). -/
def splitext (p : String) : String × String :=
  match lastDotSplit (splitAtLastSep p.data).2 with
  | some (before, ex) =>
    if before.any (fun c => c ≠ '.') then
      (((splitAtLastSep p.data).1 ++ before).asString, ex.asString)
    else (p, "")
  | none => (p, "")

/-- Model of Python `os.path.basename` (posix). -/
def basename (p : String) : String := (splitAtLastSep p.data).2.asString

/-- Model of Python `os.path.join(a, b)` for a non-absolute second part. -/
def pathJoin (a b : String) : String := a ++ "/" ++ b

/-- Membership test in a list of strings (Python `in` on the extension sets,
which the script builds as set literals). -/
def listContains : List String → String → Bool
  | [], _ => false
  | x :: rest, y => if y = x then true else listContains rest y

/-- Lookup in an association list of (path, byte size) pairs. -/
def lookupFile : List (String × Nat) → String → Option Nat
  | [], _ => none
  | (q, sz) :: rest, p => if p = q then some sz else lookupFile rest p

/- Data model. -/

/-- A Python `datetime.datetime` value, as far as the script inspects it. -/
structure PyDatetime where
  year : Nat
  month : Nat
  day : Nat
  hour : Nat
  minute : Nat
  second : Nat
deriving DecidableEq

/-- Where a resolved capture timestamp came from. -/
inductive Provenance
  | metadata
  | fallback
deriving DecidableEq

/-- Side effects of date resolution on the SOURCE file: whether
`add_date_to_exif` was invoked, and whether it reaches the `piexif.insert`
write (it only writes `.jpg`/`.jpeg` files). -/
structure ExifEffects where
  attempted : Bool
  written : Bool
deriving DecidableEq

/-- The Python return value of `process_file`: `True`, `False`, or the bare
`return` (i.e. `None`).  Only `rTrue` is truthy. -/
inductive PyRes
  | rTrue
  | rFalse
  | rNone
deriving DecidableEq

/-- State of the destination tree: the set of directories created and an
association list from file path to byte size. -/
structure FS where
  dirs : List String
  files : List (String × Nat)
deriving DecidableEq

/-- Per-file environmental inputs for one source file: its path and size, the
outcomes of the (IO-performing) metadata extractors, its modification time,
and whether an OS call raises while it is being processed (the `except`
branch of `process_file`). -/
structure FileCtx where
  path : String
  size : Nat
  image_meta : Option PyDatetime
  video_meta : Option PyDatetime
  mtime : PyDatetime
  raises : Bool
deriving DecidableEq

/- Constants and functions of the script. -/

/-- Constant `IMAGE_EXTENSIONS` from the script. -/
def IMAGE_EXTENSIONS : List String :=
  [".jpg", ".jpeg", ".png", ".gif", ".tiff", ".bmp", ".heic", ".heif", ".dng"]

/-- Constant `VIDEO_EXTENSIONS` from the script. -/
def VIDEO_EXTENSIONS : List String :=
  [".mp4", ".mov", ".avi", ".mkv", ".wmv", ".m4v", ".3gp", ".flv"]

/-- Constant `MEDIA_EXTENSIONS = IMAGE_EXTENSIONS.union(VIDEO_EXTENSIONS)`. -/
def MEDIA_EXTENSIONS : List String := IMAGE_EXTENSIONS ++ VIDEO_EXTENSIONS

/-- The fixed month-name table of `create_destination_path`. -/
def month_names : List String :=
  ["Jan", "Feb", "Mar", "Apr", "May", "Jun", "Jul", "Aug", "Sep", "Oct", "Nov", "Dec"]

/-- Whether `add_date_to_exif` reaches the `piexif.insert` write: it returns
`False` early unless both backends are present and the file name (lowered)
ends in `.jpg` or `.jpeg`. -/
def add_date_to_exif_writes (file_path : String) (has_pil has_piexif : Bool) : Bool :=
  has_pil && has_piexif &&
    (strEndsWith (strLower file_path) ".jpg" || strEndsWith (strLower file_path) ".jpeg")

/-- Function `get_file_date` from the script.  The extractor results are environmental
inputs (`image_meta` / `video_meta`); the function picks the one matching the
lower-cased extension, falls back to the modification time when it is absent,
and in the fallback case for an image (with PIL and piexif present) calls
`add_date_to_exif` on the source file. -/
def get_file_date (file_path : String) (image_meta video_meta : Option PyDatetime)
    (mtime : PyDatetime) (has_pil has_piexif : Bool) :
    PyDatetime × Provenance × ExifEffects :=
  let file_ext := strLower (splitext file_path).2
  let date_taken : Option PyDatetime :=
    if listContains IMAGE_EXTENSIONS file_ext then image_meta
    else if listContains VIDEO_EXTENSIONS file_ext then video_meta
    else none
  match date_taken with
  | some d => (d, Provenance.metadata, ⟨false, false⟩)
  | none =>
    let attempted := listContains IMAGE_EXTENSIONS file_ext && has_pil && has_piexif
    (mtime, Provenance.fallback,
      ⟨attempted, attempted && add_date_to_exif_writes file_path has_pil has_piexif⟩)

/-- Model of `os.makedirs(d, exist_ok=True)` on the modelled destination tree. -/
def makedirs (fs : FS) (d : String) : FS :=
  if listContains fs.dirs d then fs else ⟨d :: fs.dirs, fs.files⟩

/-- Function `create_destination_path` from the script.  Returns `none` when the month
table access would raise `IndexError` (month out of the table); note it
unconditionally creates the `YYYY/MM - Mon` directory as a side effect. -/
def create_destination_path (fs : FS) (dest_root : String) (date_taken : PyDatetime)
    (file_path : String) : Option (String × FS) :=
  match month_names.get? (date_taken.month - 1) with
  | none => none
  | some month_name =>
    let year_month_dir :=
      pathJoin (pathJoin dest_root (zfillNum 4 date_taken.year))
        (zfillNum 2 date_taken.month ++ " - " ++ month_name)
    some (pathJoin year_month_dir (basename file_path), makedirs fs year_month_dir)

/-- Model of `os.path.exists` against the modelled destination tree. -/
def pathExistsB (fs : FS) (p : String) : Bool := (lookupFile fs.files p).isSome

/-- Model of `os.path.getsize` (defaulting to 0; the script only calls it on paths it
has checked exist). -/
def getsizeD (fs : FS) (p : String) : Nat := (lookupFile fs.files p).getD 0

/-- The suffixed candidate `f"{base}_{counter}{ext}"`. -/
def suffixedPath (base ex : String) (k : Nat) : String :=
  base ++ "_" ++ natToDec k ++ ex

/-- The `while os.path.exists(dest_path)` loop of `process_file`, made total
with explicit fuel; `process_file` supplies fuel `fs.files.length + 1`, which
is shown below to always suffice. -/
def suffix_loop (fs : FS) (base ex : String) : Nat → Nat → String
  | counter, 0 => suffixedPath base ex counter
  | counter, fuel + 1 =>
    if pathExistsB fs (suffixedPath base ex counter) then
      suffix_loop fs base ex (counter + 1) fuel
    else suffixedPath base ex counter

/-- The conflict-handling block of `process_file` (lines 220-226): when the
candidate exists with a different byte size, run the numeric-suffix search
starting at counter 1. -/
def resolve_dest (fs : FS) (src_size : Nat) (dest0 : String) : String :=
  if pathExistsB fs dest0 && !(decide (src_size = getsizeD fs dest0)) then
    suffix_loop fs (splitext dest0).1 (splitext dest0).2 1 (fs.files.length + 1)
  else dest0

/-- Place a file into the destination tree (`shutil.copy2` / `shutil.move`
both produce a destination file of the size of the source). -/
def addFile (fs : FS) (p : String) (sz : Nat) : FS :=
  ⟨fs.dirs, (p, sz) :: fs.files⟩

/-- Function `process_file` from the script.  Mirrors the Python control flow: the
whole body is in a `try`; date resolution, destination-path creation (with
its directory side effect), conflict suffixing, the same-size skip check
(bare `return`, i.e. `None`), the dry-run branch, and the copy/move action. -/
def process_file (fs : FS) (dest_root : String) (c : FileCtx)
    (dry_run copy_instead_of_move has_pil has_piexif : Bool) :
    PyRes × FS × ExifEffects :=
  if c.raises then (PyRes.rFalse, fs, ⟨false, false⟩)
  else
    let r := get_file_date c.path c.image_meta c.video_meta c.mtime has_pil has_piexif
    match create_destination_path fs dest_root r.1 c.path with
    | none => (PyRes.rFalse, fs, r.2.2)
    | some (dest0, fs1) =>
      let dest_path := resolve_dest fs1 c.size dest0
      if pathExistsB fs1 dest_path && decide (c.size = getsizeD fs1 dest_path) then
        (PyRes.rNone, fs1, r.2.2)
      else if dry_run then (PyRes.rTrue, fs1, r.2.2)
      else (PyRes.rTrue, addFile fs1 dest_path c.size, r.2.2)

/-- Media test of the walker (`os.path.splitext(filename)[1].lower() in
MEDIA_EXTENSIONS`). -/
def is_media_file (filename : String) : Bool :=
  listContains MEDIA_EXTENSIONS (strLower (splitext filename).2)

/-- The walking loop of `process_directory`: accumulates
(success_count, error_count, skipped_count); a `process_file` result counts
as a success exactly when it is truthy (`True`), every other result
(including the bare-`return` `None` of a skip) falls into the `else` branch
and increments `error_count`. -/
def process_directory_loop (dest_root : String) (dry_run copy has_pil has_piexif : Bool) :
    FS → Nat → Nat → Nat → List FileCtx → FS × Nat × Nat × Nat
  | fs, s, e, k, [] => (fs, s, e, k)
  | fs, s, e, k, c :: rest =>
    if is_media_file (basename c.path) then
      match process_file fs dest_root c dry_run copy has_pil has_piexif with
      | (PyRes.rTrue, fs1, _) =>
        process_directory_loop dest_root dry_run copy has_pil has_piexif fs1 (s + 1) e k rest
      | (_, fs1, _) =>
        process_directory_loop dest_root dry_run copy has_pil has_piexif fs1 s (e + 1) k rest
    else process_directory_loop dest_root dry_run copy has_pil has_piexif fs s e (k + 1) rest

/-- Function `process_directory` from the script: refuses `source == destination`,
walks the entries, and returns the counts together with its Boolean result
`success_count > 0 and error_count == 0`. -/
def process_directory (source_dir dest_root : String) (entries : List FileCtx) (fs : FS)
    (dry_run copy has_pil has_piexif : Bool) : FS × Nat × Nat × Nat × Bool :=
  if source_dir = dest_root then (fs, 0, 0, 0, false)
  else
    match process_directory_loop dest_root dry_run copy has_pil has_piexif fs 0 0 0 entries with
    | (fs1, s, e, k) => (fs1, s, e, k, decide (0 < s) && decide (e = 0))

/-- Model of the exit status of `main`, given the Boolean returned by `process_directory`
(`sys.exit(0)` on `True`, `sys.exit(1)` on `False`). -/
def main_exit (ok : Bool) : Nat := if ok then 0 else 1

/- Concrete inputs used by the code-bug theorems, counterexamples and
witnesses. -/

/-- A timestamp in March 2024 (the worked example from the spec). -/
def dMar : PyDatetime := ⟨2024, 3, 15, 10, 0, 0⟩

/-- The March 2024 destination directory under root `/out`. -/
def dirMar : String := "/out/2024/03 - Mar"

/-- Destination tree already holding `a.jpg` of size 100 in the March folder. -/
def fsC1 : FS := ⟨[dirMar], [("/out/2024/03 - Mar/a.jpg", 100)]⟩

/-- A source `a.jpg` of size 100 with EXIF date March 2024. -/
def ctxA : FileCtx := ⟨"/src/a.jpg", 100, some dMar, none, dMar, false⟩

/-- An empty destination tree. -/
def fsEmpty : FS := ⟨[], []⟩

/-- Destination tree already holding `b.jpg` of size 50 in the March folder. -/
def fsC3 : FS := ⟨[dirMar], [("/out/2024/03 - Mar/b.jpg", 50)]⟩

/-- A source `b.jpg` of size 50 (identical to the one already placed). -/
def ctxB50 : FileCtx := ⟨"/src/b.jpg", 50, some dMar, none, dMar, false⟩

/-- A source file on which an OS call raises, so `process_file` hits its
`except` branch and returns `False`. -/
def ctxRaise : FileCtx := ⟨"/src/c.jpg", 70, some dMar, none, dMar, true⟩

/-- Destination tree holding `b.jpg` (size 5) and `b_1.jpg` (size 3) in the
March folder. -/
def fsC4 : FS :=
  ⟨[dirMar], [("/out/2024/03 - Mar/b.jpg", 5), ("/out/2024/03 - Mar/b_1.jpg", 3)]⟩

/-- A source `b.jpg` of size 3: differs from the placed `b.jpg`, matches the
placed `b_1.jpg`. -/
def ctxB3 : FileCtx := ⟨"/src/b.jpg", 3, some dMar, none, dMar, false⟩

/-- An image source with no readable metadata date. -/
def ctxNoMeta : FileCtx := ⟨"/src/noexif.jpg", 10, none, none, dMar, false⟩

/- Helper lemmas. -/

theorem strData_append (s t : String) : (s ++ t).data = s.data ++ t.data := by
  cases s; cases t; rfl

theorem asString_inj {a b : List Char} (h : a.asString = b.asString) : a = b :=
  congrArg String.data h

theorem strExt {a b : String} (h : a.data = b.data) : a = b := by
  cases a; cases b; exact congrArg String.mk h

theorem digitChar_fin_inj :
    ∀ a b : Fin 10, Nat.digitChar a.1 = Nat.digitChar b.1 → a = b := by decide

theorem digitChar_inj_lt {a b : Nat} (ha : a < 10) (hb : b < 10)
    (h : Nat.digitChar a = Nat.digitChar b) : a = b := by
  have := digitChar_fin_inj ⟨a, ha⟩ ⟨b, hb⟩ h
  exact congrArg Fin.val this

theorem mapDigitChar_inj :
    ∀ l₁ l₂ : List Nat, (∀ x ∈ l₁, x < 10) → (∀ x ∈ l₂, x < 10) →
      l₁.map Nat.digitChar = l₂.map Nat.digitChar → l₁ = l₂ := by
  intro l₁
  induction l₁ with
  | nil =>
    intro l₂ _ _ h
    cases l₂ with
    | nil => rfl
    | cons b t => simp at h
  | cons a t ih =>
    intro l₂ h1 h2 h
    cases l₂ with
    | nil => simp at h
    | cons b t2 =>
      simp only [List.map_cons, List.cons.injEq] at h
      have hab := digitChar_inj_lt (h1 a (by simp)) (h2 b (by simp)) h.1
      have ht := ih t2 (fun x hx => h1 x (by simp [hx])) (fun x hx => h2 x (by simp [hx])) h.2
      simp [hab, ht]

theorem natToDecAux_eq :
    ∀ fuel n : Nat, n ≤ fuel →
      natToDecAux fuel n = ((Nat.digits 10 n).map Nat.digitChar).reverse := by
  intro fuel
  induction fuel with
  | zero =>
    intro n hn
    interval_cases n
    simp [natToDecAux]
  | succ f ih =>
    intro n hn
    by_cases h0 : n = 0
    · subst h0; simp [natToDecAux]
    · have hd : Nat.digits 10 n = n % 10 :: Nat.digits 10 (n / 10) :=
        Nat.digits_def' (by norm_num) (Nat.pos_of_ne_zero h0)
      have hlt : n / 10 < n := Nat.div_lt_self (Nat.pos_of_ne_zero h0) (by norm_num)
      have hle : n / 10 ≤ f := by omega
      simp [natToDecAux, h0, hd, ih _ hle]

theorem natToDec_inj {i j : Nat} (hi : 1 ≤ i) (hj : 1 ≤ j)
    (h : natToDec i = natToDec j) : i = j := by
  unfold natToDec at h
  rw [if_neg (by omega), if_neg (by omega)] at h
  have hl : natToDecAux i i = natToDecAux j j := asString_inj h
  rw [natToDecAux_eq i i le_rfl, natToDecAux_eq j j le_rfl] at hl
  have hmap := List.reverse_injective hl
  have hdig := mapDigitChar_inj _ _
    (fun x hx => Nat.digits_lt_base (by norm_num) hx)
    (fun x hx => Nat.digits_lt_base (by norm_num) hx) hmap
  have := congrArg (Nat.ofDigits 10) hdig
  rw [Nat.ofDigits_digits, Nat.ofDigits_digits] at this
  exact_mod_cast this

theorem suffixedPath_inj (b e : String) {i j : Nat} (hi : 1 ≤ i) (hj : 1 ≤ j)
    (h : suffixedPath b e i = suffixedPath b e j) : i = j := by
  unfold suffixedPath at h
  have hd := congrArg String.data h
  simp only [strData_append, List.append_assoc] at hd
  have h1 := List.append_cancel_left hd
  have h2 := List.append_cancel_left h1
  have h3 := List.append_cancel_right h2
  exact natToDec_inj hi hj (strExt h3)

theorem lookupFile_mem {l : List (String × Nat)} {p : String}
    (h : (lookupFile l p).isSome = true) : p ∈ l.map Prod.fst := by
  induction l with
  | nil => simp [lookupFile] at h
  | cons a t ih =>
    obtain ⟨q, sz⟩ := a
    by_cases hpq : p = q
    · simp [hpq]
    · rw [lookupFile, if_neg hpq] at h
      simpa using Or.inr (ih h)

theorem suffix_loop_finds (fs : FS) (b e : String) :
    ∀ fuel c : Nat,
      (∃ t, t < fuel ∧ pathExistsB fs (suffixedPath b e (c + t)) = false) →
      ∃ t, t < fuel ∧ suffix_loop fs b e c fuel = suffixedPath b e (c + t) ∧
        pathExistsB fs (suffixedPath b e (c + t)) = false ∧
        ∀ u, u < t → pathExistsB fs (suffixedPath b e (c + u)) = true := by
  intro fuel
  induction fuel with
  | zero =>
    rintro c ⟨t, ht, -⟩
    omega
  | succ f ih =>
    rintro c ⟨t, ht, hfree⟩
    by_cases hex : pathExistsB fs (suffixedPath b e c) = true
    · have ht0 : t ≠ 0 := by
        rintro rfl
        rw [Nat.add_zero] at hfree
        rw [hex] at hfree
        cases hfree
      obtain ⟨t', ht', hloop, hfree', hbelow⟩ :=
        ih (c + 1) ⟨t - 1, by omega, by
          have harr : c + 1 + (t - 1) = c + t := by omega
          rw [harr]; exact hfree⟩
      have harith : c + (t' + 1) = c + 1 + t' := by omega
      refine ⟨t' + 1, by omega, ?_, ?_, ?_⟩
      · rw [suffix_loop, if_pos hex, harith]
        exact hloop
      · rw [harith]; exact hfree'
      · intro u hu
        by_cases hu0 : u = 0
        · subst hu0; rw [Nat.add_zero]; exact hex
        · have harr2 : c + u = c + 1 + (u - 1) := by omega
          rw [harr2]; exact hbelow (u - 1) (by omega)
    · have hexf : pathExistsB fs (suffixedPath b e c) = false := by
        revert hex; cases pathExistsB fs (suffixedPath b e c) <;> simp
      refine ⟨0, by omega, ?_, ?_, ?_⟩
      · rw [suffix_loop, if_neg (by rw [hexf]; exact fun h => nomatch h), Nat.add_zero]
      · rw [Nat.add_zero]; exact hexf
      · intro u hu; omega

theorem exists_free_within (fs : FS) (b e : String) :
    ∃ t, t < fs.files.length + 1 ∧
      pathExistsB fs (suffixedPath b e (1 + t)) = false := by
  by_contra hcon
  push_neg at hcon
  have hall : ∀ t, t < fs.files.length + 1 →
      pathExistsB fs (suffixedPath b e (1 + t)) = true := by
    intro t ht
    have := hcon t ht
    revert this
    cases pathExistsB fs (suffixedPath b e (1 + t)) <;> simp
  have hinj : Function.Injective (fun t : Nat => suffixedPath b e (1 + t)) := by
    intro x y hxy
    have := suffixedPath_inj b e (i := 1 + x) (j := 1 + y) (by omega) (by omega) hxy
    omega
  have hnd : ((List.range (fs.files.length + 1)).map
      (fun t => suffixedPath b e (1 + t))).Nodup :=
    (List.nodup_range _).map hinj
  have hsub : ((List.range (fs.files.length + 1)).map
      (fun t => suffixedPath b e (1 + t))) ⊆ fs.files.map Prod.fst := by
    intro x hx
    simp only [List.mem_map, List.mem_range] at hx
    obtain ⟨t, ht, rfl⟩ := hx
    exact lookupFile_mem (by simpa [pathExistsB] using hall t ht)
  have hsp := (hnd.subperm hsub).length_le
  simp only [List.length_map, List.length_range] at hsp
  omega

theorem resolve_dest_spec (fs : FS) (sz : Nat) (dest0 : String)
    (hex : pathExistsB fs dest0 = true) (hsz : getsizeD fs dest0 ≠ sz) :
    ∃ k, 1 ≤ k ∧
      resolve_dest fs sz dest0 =
        suffixedPath (splitext dest0).1 (splitext dest0).2 k ∧
      pathExistsB fs (suffixedPath (splitext dest0).1 (splitext dest0).2 k) = false ∧
      ∀ j, 1 ≤ j → j < k →
        pathExistsB fs (suffixedPath (splitext dest0).1 (splitext dest0).2 j) = true := by
  obtain ⟨t, ht, hfree⟩ := exists_free_within fs (splitext dest0).1 (splitext dest0).2
  obtain ⟨t', ht', hloop, hfree', hbelow⟩ :=
    suffix_loop_finds fs (splitext dest0).1 (splitext dest0).2
      (fs.files.length + 1) 1 ⟨t, ht, hfree⟩
  refine ⟨1 + t', by omega, ?_, hfree', ?_⟩
  · have hsz2 : ¬sz = getsizeD fs dest0 := fun h => hsz h.symm
    have hc : (pathExistsB fs dest0 && !(decide (sz = getsizeD fs dest0))) = true := by
      rw [hex]
      simp [hsz2]
    rw [resolve_dest, if_pos hc]
    exact hloop
  · intro j h1 hj
    have harr : j = 1 + (j - 1) := by omega
    rw [harr]
    exact hbelow (j - 1) (by omega)

/- Claim theorems. -/

/-- C1 (code bug): when the planned destination already holds a file of
identical byte size, `process_file` does skip the file (bare `return`, i.e.
`None`) and leaves the destination tree untouched — but `process_directory`
tests the result for truthiness, so the skip falls into the `else` branch and
increments `error_count`: the skipped file DOES contribute to the overall
failure count, and a run consisting of this one file reports failure. -/
theorem c1_skip_counted_in_error_count :
    process_file fsC1 "/out" ctxA false false true true =
      (PyRes.rNone, fsC1, ⟨false, false⟩) ∧
    process_directory "/src" "/out" [ctxA] fsC1 false false true true =
      (fsC1, 0, 1, 0, false) := by
  exact ⟨by decide, by decide⟩

/-- C2 (code bug): `create_destination_path` runs `os.makedirs` before
`process_file` ever consults `dry_run`, so a `--dry-run` run on an empty
destination tree creates the `YYYY/MM - Mon` directory even though it writes
no file: the destination tree is NOT unchanged after a dry run. -/
theorem c2_dry_run_creates_directory :
    (process_file fsEmpty "/out" ctxA true false true true).1 = PyRes.rTrue ∧
    (process_file fsEmpty "/out" ctxA true false true true).2.1.dirs =
      ["/out/2024/03 - Mar"] ∧
    fsEmpty.dirs = [] ∧
    (process_file fsEmpty "/out" ctxA true false true true).2.1.files =
      fsEmpty.files := by
  exact ⟨by decide, by decide, by decide, by decide⟩

/-- C3 (code bug): a run with one successfully processed file and one
same-size skip has at least one file processed and zero per-file failures
(neither file raises; the second is skipped with `None`), yet the Boolean
returned by the driver is `false` and the exit code 1, because the skip was counted in
`error_count`.  The last conjunct shows a run does continue past a failing
file (a raising first file, then a processed one). -/
theorem c3_exit_code_counts_skips_as_failures :
    process_directory "/src" "/out" [ctxA, ctxB50] fsC3 false false true true =
      (⟨[dirMar], [("/out/2024/03 - Mar/a.jpg", 100), ("/out/2024/03 - Mar/b.jpg", 50)]⟩,
        1, 1, 0, false) ∧
    ctxA.raises = false ∧ ctxB50.raises = false ∧
    (process_file
        ⟨[dirMar], [("/out/2024/03 - Mar/a.jpg", 100), ("/out/2024/03 - Mar/b.jpg", 50)]⟩
        "/out" ctxB50 false false true true).1 = PyRes.rNone ∧
    main_exit false = 1 ∧
    process_directory "/src" "/out" [ctxRaise, ctxA] fsC3 false false true true =
      (⟨[dirMar], [("/out/2024/03 - Mar/a.jpg", 100), ("/out/2024/03 - Mar/b.jpg", 50)]⟩,
        1, 1, 0, false) := by
  exact ⟨by decide, by decide, by decide, by decide, by decide, by decide⟩

/-- C4 (counterexample): with `b.jpg` (size 5) and `b_1.jpg` (size 3) already
in the March folder and a source `b.jpg` of size 3, the first suffixed path
holding a file of the same byte size as the source is `b_1.jpg`, so the claim
says the search stops there and yields Skip — but the suffix loop only stops
at a non-existing path: the file is Processed (returns `True`) and placed at
`b_2.jpg`. -/
theorem c4_counterexample :
    ctxB3.size = 3 ∧
    lookupFile fsC4.files "/out/2024/03 - Mar/b_1.jpg" = some 3 ∧
    (process_file fsC4 "/out" ctxB3 false false true true).1 = PyRes.rTrue ∧
    (process_file fsC4 "/out" ctxB3 false false true true).2.1.files =
      ("/out/2024/03 - Mar/b_2.jpg", 3) :: fsC4.files := by
  exact ⟨by decide, by decide, by decide, by decide⟩

/-- C4 (amended): when the candidate destination exists with a byte size
different from the source, the planner appends numeric suffixes `_1`, `_2`,
... in strictly increasing order and stops at the FIRST suffixed path that
does not exist (existing suffixed files are passed over whatever their size,
never yielding Skip); in particular the returned destination never collides
with any existing file, so never with one of different size. -/
theorem c4_amended_suffix_search (fs : FS) (sz : Nat) (dest0 : String)
    (hex : pathExistsB fs dest0 = true) (hsz : getsizeD fs dest0 ≠ sz) :
    ∃ k, 1 ≤ k ∧
      resolve_dest fs sz dest0 =
        suffixedPath (splitext dest0).1 (splitext dest0).2 k ∧
      pathExistsB fs (resolve_dest fs sz dest0) = false ∧
      ∀ j, 1 ≤ j → j < k →
        pathExistsB fs (suffixedPath (splitext dest0).1 (splitext dest0).2 j) = true := by
  obtain ⟨k, hk, heq, hfree, hbelow⟩ := resolve_dest_spec fs sz dest0 hex hsz
  exact ⟨k, hk, heq, by rw [heq]; exact hfree, hbelow⟩

/-- C4 witness: the amended statement evaluated on the concrete tree of the
counterexample (the search lands on `b_2.jpg`). -/
theorem c4_amended_suffix_search_witness :
    ∃ k, 1 ≤ k ∧
      resolve_dest fsC4 3 "/out/2024/03 - Mar/b.jpg" =
        suffixedPath (splitext "/out/2024/03 - Mar/b.jpg").1
          (splitext "/out/2024/03 - Mar/b.jpg").2 k ∧
      pathExistsB fsC4 (resolve_dest fsC4 3 "/out/2024/03 - Mar/b.jpg") = false ∧
      ∀ j, 1 ≤ j → j < k →
        pathExistsB fsC4 (suffixedPath (splitext "/out/2024/03 - Mar/b.jpg").1
          (splitext "/out/2024/03 - Mar/b.jpg").2 j) = true :=
  c4_amended_suffix_search fsC4 3 "/out/2024/03 - Mar/b.jpg" (by decide) (by decide)

/-- C5: for a resolved timestamp with a valid month, the planned path is
`destinationRoot/<4-digit year>/<2-digit month> - <3-letter month name from
the fixed Jan..Dec table>/<basename of the source filename>`, and in
particular `a.jpg` with capture date 2024-03-15 10:00:00 under root `/out`
is planned to `/out/2024/03 - Mar/a.jpg`. -/
theorem c5_planned_path_format :
    (∀ (fs : FS) (root : String) (d : PyDatetime) (p : String),
        1 ≤ d.month → d.month ≤ 12 →
        ∃ mn, month_names.get? (d.month - 1) = some mn ∧
          create_destination_path fs root d p =
            some (pathJoin (pathJoin (pathJoin root (zfillNum 4 d.year))
                    (zfillNum 2 d.month ++ " - " ++ mn)) (basename p),
              makedirs fs (pathJoin (pathJoin root (zfillNum 4 d.year))
                    (zfillNum 2 d.month ++ " - " ++ mn)))) ∧
    create_destination_path fsEmpty "/out" dMar "a.jpg" =
      some ("/out/2024/03 - Mar/a.jpg", ⟨["/out/2024/03 - Mar"], []⟩) := by
  constructor
  · intro fs root d p h1 h2
    obtain ⟨y, m, dd, hh, mi, se⟩ := d
    dsimp only at h1 h2 ⊢
    interval_cases m <;> exact ⟨_, rfl, rfl⟩
  · decide

/-- C5 witness: the format statement applied at the worked example from the spec. -/
theorem c5_planned_path_format_witness :
    ∃ mn, month_names.get? (dMar.month - 1) = some mn ∧
      create_destination_path fsEmpty "/out" dMar "a.jpg" =
        some (pathJoin (pathJoin (pathJoin "/out" (zfillNum 4 dMar.year))
                (zfillNum 2 dMar.month ++ " - " ++ mn)) (basename "a.jpg"),
          makedirs fsEmpty (pathJoin (pathJoin "/out" (zfillNum 4 dMar.year))
                (zfillNum 2 dMar.month ++ " - " ++ mn))) :=
  c5_planned_path_format.1 fsEmpty "/out" dMar "a.jpg" (by decide) (by decide)

/-- C6: when no metadata strategy yields a timestamp for the file (the
extractor result for the kind of the file is `None`), `get_file_date` returns
the modification time of the file with provenance ModificationTimeFallback; the
fallback is total, so the resolver returns exactly one timestamp. -/
theorem c6_fallback_is_mtime (p : String) (im vm : Option PyDatetime)
    (mt : PyDatetime) (hp hx : Bool)
    (him : listContains IMAGE_EXTENSIONS (strLower (splitext p).2) = true → im = none)
    (hvm : listContains VIDEO_EXTENSIONS (strLower (splitext p).2) = true → vm = none) :
    (get_file_date p im vm mt hp hx).1 = mt ∧
    (get_file_date p im vm mt hp hx).2.1 = Provenance.fallback := by
  by_cases h1 : listContains IMAGE_EXTENSIONS (strLower (splitext p).2) = true
  · have h0 := him h1
    constructor <;> simp [get_file_date, h1, h0]
  · by_cases h2 : listContains VIDEO_EXTENSIONS (strLower (splitext p).2) = true
    · have h0 := hvm h2
      constructor <;> simp [get_file_date, h1, h2, h0]
    · constructor <;> simp [get_file_date, h1, h2]

/-- C6 witness: an image file whose extractors found nothing resolves to its
modification time with fallback provenance. -/
theorem c6_fallback_is_mtime_witness :
    (get_file_date "/src/a.jpg" none none dMar true true).1 = dMar ∧
    (get_file_date "/src/a.jpg" none none dMar true true).2.1 = Provenance.fallback :=
  c6_fallback_is_mtime "/src/a.jpg" none none dMar true true
    (fun _ => rfl) (fun _ => rfl)

/-- C7: for a fixed destination tree and fixed inputs the suffix search is a
pure function (hence deterministic) and terminates at the first free index:
the result is `base_k.ext` with every earlier suffix `1 ≤ j < k` occupied,
and for ANY duplicate-free list `L` containing the pre-existing colliding
suffixed files at that canonical path, the number of iterations `k` is at
most `L.length + 1`. -/
theorem c7_suffix_search_terminates_bounded (fs : FS) (sz : Nat) (dest0 : String)
    (hex : pathExistsB fs dest0 = true) (hsz : getsizeD fs dest0 ≠ sz) :
    ∃ k, 1 ≤ k ∧
      resolve_dest fs sz dest0 =
        suffixedPath (splitext dest0).1 (splitext dest0).2 k ∧
      pathExistsB fs (suffixedPath (splitext dest0).1 (splitext dest0).2 k) = false ∧
      (∀ j, 1 ≤ j → j < k →
        pathExistsB fs (suffixedPath (splitext dest0).1 (splitext dest0).2 j) = true) ∧
      ∀ L : List String, L.Nodup →
        (∀ j, 1 ≤ j →
          pathExistsB fs (suffixedPath (splitext dest0).1 (splitext dest0).2 j) = true →
          suffixedPath (splitext dest0).1 (splitext dest0).2 j ∈ L) →
        k ≤ L.length + 1 := by
  obtain ⟨k, hk, heq, hfree, hbelow⟩ := resolve_dest_spec fs sz dest0 hex hsz
  refine ⟨k, hk, heq, hfree, hbelow, ?_⟩
  intro L hnd hcol
  have hinj : Function.Injective
      (fun u : Nat => suffixedPath (splitext dest0).1 (splitext dest0).2 (1 + u)) := by
    intro x y hxy
    have := suffixedPath_inj (splitext dest0).1 (splitext dest0).2
      (i := 1 + x) (j := 1 + y) (by omega) (by omega) hxy
    omega
  have hnd2 : ((List.range (k - 1)).map
      (fun u => suffixedPath (splitext dest0).1 (splitext dest0).2 (1 + u))).Nodup :=
    (List.nodup_range _).map hinj
  have hsub : ((List.range (k - 1)).map
      (fun u => suffixedPath (splitext dest0).1 (splitext dest0).2 (1 + u))) ⊆ L := by
    intro x hx
    simp only [List.mem_map, List.mem_range] at hx
    obtain ⟨u, hu, rfl⟩ := hx
    exact hcol (1 + u) (by omega) (hbelow (1 + u) (by omega) (by omega))
  have hlen := (hnd2.subperm hsub).length_le
  simp only [List.length_map, List.length_range] at hlen
  omega

/-- C7 witness: on the concrete tree with one colliding suffixed file
(`b_1.jpg`), taking `L = [b_1.jpg]` the search finishes within 2 iterations. -/
theorem c7_suffix_search_terminates_bounded_witness :
    ∃ k, 1 ≤ k ∧
      resolve_dest fsC4 3 "/out/2024/03 - Mar/b.jpg" =
        suffixedPath (splitext "/out/2024/03 - Mar/b.jpg").1
          (splitext "/out/2024/03 - Mar/b.jpg").2 k ∧
      pathExistsB fsC4 (suffixedPath (splitext "/out/2024/03 - Mar/b.jpg").1
        (splitext "/out/2024/03 - Mar/b.jpg").2 k) = false ∧
      (∀ j, 1 ≤ j → j < k →
        pathExistsB fsC4 (suffixedPath (splitext "/out/2024/03 - Mar/b.jpg").1
          (splitext "/out/2024/03 - Mar/b.jpg").2 j) = true) ∧
      ∀ L : List String, L.Nodup →
        (∀ j, 1 ≤ j →
          pathExistsB fsC4 (suffixedPath (splitext "/out/2024/03 - Mar/b.jpg").1
            (splitext "/out/2024/03 - Mar/b.jpg").2 j) = true →
          suffixedPath (splitext "/out/2024/03 - Mar/b.jpg").1
            (splitext "/out/2024/03 - Mar/b.jpg").2 j ∈ L) →
        k ≤ L.length + 1 :=
  c7_suffix_search_terminates_bounded fsC4 3 "/out/2024/03 - Mar/b.jpg"
    (by decide) (by decide)

/-- C8: extension classification lower-cases the extension before the
membership tests, so upper- and mixed-case media extensions are classified
as media by the test of the walker and dispatched to the matching extractor by
the date resolver (`.JPG` reads image metadata, `.Mp4` reads video
metadata). -/
theorem c8_extension_case_insensitive :
    is_media_file "IMG_0001.JPG" = true ∧
    is_media_file "clip.Mp4" = true ∧
    is_media_file "x.JpEg" = true ∧
    (∀ (d : PyDatetime) (vm : Option PyDatetime) (mt : PyDatetime) (hp hx : Bool),
        get_file_date "/a/DSC.JPG" (some d) vm mt hp hx =
          (d, Provenance.metadata, ⟨false, false⟩)) ∧
    (∀ (d : PyDatetime) (im : Option PyDatetime) (mt : PyDatetime) (hp hx : Bool),
        get_file_date "/a/mov.Mp4" im (some d) mt hp hx =
          (d, Provenance.metadata, ⟨false, false⟩)) := by
  refine ⟨by decide, by decide, by decide, ?_, ?_⟩
  · intro d vm mt hp hx
    rfl
  · intro d im mt hp hx
    rfl

/-- C9: the enrichment write to the SOURCE file is attempted independently of
the run mode: `get_file_date` runs (and calls `add_date_to_exif`) before
`process_file` ever consults `dry_run`, so for an image with no metadata
date, PIL and piexif present, the attempt happens for every value of
`dry_run`, and for a `.jpg` source the EXIF write is reached — a dry run can
mutate source files. -/
theorem c9_enrichment_ignores_dry_run (fs : FS) (root : String) (c : FileCtx)
    (dry copy hp hx : Bool)
    (hr : c.raises = false)
    (him : listContains IMAGE_EXTENSIONS (strLower (splitext c.path).2) = true)
    (hmeta : c.image_meta = none)
    (hhp : hp = true) (hhx : hx = true) :
    (process_file fs root c dry copy hp hx).2.2.attempted = true ∧
    (strEndsWith (strLower c.path) ".jpg" = true →
      (process_file fs root c dry copy hp hx).2.2.written = true) := by
  subst hhp
  subst hhx
  have hgd : get_file_date c.path c.image_meta c.video_meta c.mtime true true =
      (c.mtime, Provenance.fallback,
        ⟨true, add_date_to_exif_writes c.path true true⟩) := by
    simp [get_file_date, him, hmeta]
  have heff : (process_file fs root c dry copy true true).2.2 =
      ⟨true, add_date_to_exif_writes c.path true true⟩ := by
    simp only [process_file, hr, Bool.false_eq_true, if_false, hgd]
    cases hcd : create_destination_path fs root c.mtime c.path with
    | none => simp [hcd]
    | some pr =>
      obtain ⟨d0, fs1⟩ := pr
      simp only [hcd]
      split
      · rfl
      · split
        · rfl
        · rfl
  constructor
  · rw [heff]
  · intro hjpg
    rw [heff]
    simp [add_date_to_exif_writes, hjpg]

/-- C9 witness: a `.jpg` source with no metadata date, processed under
`--dry-run`, still has the EXIF enrichment attempted and written. -/
theorem c9_enrichment_ignores_dry_run_witness :
    (process_file fsEmpty "/out" ctxNoMeta true false true true).2.2.attempted = true ∧
    (process_file fsEmpty "/out" ctxNoMeta true false true true).2.2.written = true :=
  ⟨(c9_enrichment_ignores_dry_run fsEmpty "/out" ctxNoMeta true false true true
      (by decide) (by decide) (by decide) rfl rfl).1,
   (c9_enrichment_ignores_dry_run fsEmpty "/out" ctxNoMeta true false true true
      (by decide) (by decide) (by decide) rfl rfl).2 (by decide)⟩

/-- C10: the month-table lookup is in bounds for every resolved timestamp:
`get_file_date` only returns one of its (valid-month) inputs, and for a month
in 1..12 the index `month - 1` hits the 12-entry table, so
`create_destination_path` succeeds (no `IndexError`). -/
theorem c10_month_table_in_bounds :
    (∀ (p : String) (im vm : Option PyDatetime) (mt : PyDatetime) (hp hx : Bool),
        (∀ d, im = some d → 1 ≤ d.month ∧ d.month ≤ 12) →
        (∀ d, vm = some d → 1 ≤ d.month ∧ d.month ≤ 12) →
        (1 ≤ mt.month ∧ mt.month ≤ 12) →
        1 ≤ (get_file_date p im vm mt hp hx).1.month ∧
          (get_file_date p im vm mt hp hx).1.month ≤ 12) ∧
    (∀ (fs : FS) (root : String) (d : PyDatetime) (p : String),
        1 ≤ d.month → d.month ≤ 12 →
        (month_names.get? (d.month - 1)).isSome = true ∧
        (create_destination_path fs root d p).isSome = true) := by
  constructor
  · intro p im vm mt hp hx him hvm hmt
    by_cases h1 : listContains IMAGE_EXTENSIONS (strLower (splitext p).2) = true
    · cases him2 : im with
      | none => simp [get_file_date, h1, him2]; exact hmt
      | some d0 => simp [get_file_date, h1, him2]; exact him d0 him2
    · by_cases h2 : listContains VIDEO_EXTENSIONS (strLower (splitext p).2) = true
      · cases hvm2 : vm with
        | none => simp [get_file_date, h1, h2, hvm2]; exact hmt
        | some d0 => simp [get_file_date, h1, h2, hvm2]; exact hvm d0 hvm2
      · simp [get_file_date, h1, h2]; exact hmt
  · intro fs root d p h1 h2
    obtain ⟨y, m, dd, hh, mi, se⟩ := d
    dsimp only at h1 h2 ⊢
    interval_cases m <;> exact ⟨rfl, rfl⟩

/-- C10 witness: both parts at a concrete resolved timestamp (March 2024). -/
theorem c10_month_table_in_bounds_witness :
    (1 ≤ (get_file_date "/src/a.jpg" none none dMar true true).1.month ∧
      (get_file_date "/src/a.jpg" none none dMar true true).1.month ≤ 12) ∧
    ((month_names.get? (dMar.month - 1)).isSome = true ∧
      (create_destination_path fsEmpty "/out" dMar "a.jpg").isSome = true) :=
  ⟨c10_month_table_in_bounds.1 "/src/a.jpg" none none dMar true true
      (fun _ h => nomatch h) (fun _ h => nomatch h) (by decide),
   c10_month_table_in_bounds.2 fsEmpty "/out" dMar "a.jpg" (by decide) (by decide)⟩
